import Mathlib

/-!
Verification of the BaseGecko-Desktop client-side data cache and
pagination/aggregation layer (`src/services/coinDataManager.ts`) and its
supporting coin service / search service (`coinService.ts`,
`coinedPostSearchService.ts`).

Shallow embedding conventions:
* JavaScript numbers are modelled as exact rationals (`ℚ`).  The one place
  where `NaN` is observable (the raw-token transformation) uses a dedicated
  `JsNum` type instead.
* JavaScript's stable `Array.prototype.sort(cmp)` (stable per the ECMAScript
  spec) is modelled by `List.insertionSort r` where `r a b` holds exactly when
  `cmp(a,b) <= 0`; for a consistent comparator every stable sort produces this
  same output.
* Strings are Lean `String`s; the JavaScript string builtins used by the code
  (`toLowerCase`, `trim`, `startsWith`, `includes`) are modelled by structural
  functions on the underlying character lists.
* `async` functions are modelled as pure functions taking the outcomes of
  their awaited calls as arguments; exceptions are modelled with `Except`.
-/

namespace BaseGecko

/-! ### Models of JavaScript string builtins -/

/-- Model of JavaScript `String.prototype.toLowerCase` (ASCII case mapping). -/
def jsToLower (s : String) : String :=
  ⟨s.data.map Char.toLower⟩

/-- Model of JavaScript `String.prototype.trim`: strip whitespace on both
ends. -/
def jsTrim (s : String) : String :=
  ⟨((s.data.dropWhile Char.isWhitespace).reverse.dropWhile Char.isWhitespace).reverse⟩

/-- Model of JavaScript `String.prototype.startsWith`. -/
def jsStartsWith (s pat : String) : Bool :=
  pat.data.isPrefixOf s.data

/-- Does `sub` occur as a contiguous sublist of `l`?  (Helper for
`jsIncludes`.) -/
def listIncludes (sub : List Char) : List Char → Bool
  | [] => sub.isEmpty
  | c :: t => sub.isPrefixOf (c :: t) || listIncludes sub t

/-- Model of JavaScript `String.prototype.includes`. -/
def jsIncludes (s pat : String) : Bool :=
  listIncludes pat.data s.data

/-! ### The Token Record (`Coin` interface of `coinService.ts`)

Numeric fields are exact rationals; `createdAt` is the millisecond timestamp
`new Date(coin.createdAt).getTime()` that the manager's date comparisons
actually operate on. -/

structure Coin where
  id : String
  name : String
  symbol : String
  address : String
  description : Option String
  creatorAddress : Option String
  price : ℚ
  change24h : ℚ
  volume24h : ℚ
  marketCap : ℚ
  holders : ℚ
  totalSupply : ℚ
  createdAt : ℚ
  rank : Nat
deriving DecidableEq

/-- The inline `marketStats` record type of `CoinDataCache` in
`coinDataManager.ts`. -/
structure MarketStats where
  totalMarketCap : ℚ
  totalVolume : ℚ
  topPerformers : List Coin
  topGainers : List Coin
  topLosers : List Coin
deriving DecidableEq

/-- `CoinDataCache` of `coinDataManager.ts`. -/
structure CoinDataCache where
  coins : List Coin
  lastUpdated : ℚ
  totalFetched : Nat
  marketStats : MarketStats
deriving DecidableEq

/-- `PaginatedResult` of `coinDataManager.ts`. -/
structure PaginatedResult where
  coins : List Coin
  currentPage : Nat
  totalPages : Nat
  totalCoins : Nat
  hasMore : Bool
deriving DecidableEq

/-! ### Aggregation Engine (`analyzeCoins`) -/

/-- The blended performance score `coin.marketCap * 0.6 + coin.volume24h * 0.4`
(the decimal literals are the exact rationals 6/10 and 4/10). -/
def performanceScore (c : Coin) : ℚ :=
  c.marketCap * (6 / 10) + c.volume24h * (4 / 10)

/-- Comparator relation of `(a, b) => b.change24h - a.change24h`
(descending 24h change): `a` may precede `b` iff the comparator is `≤ 0`. -/
def gainsRel (a b : Coin) : Prop := b.change24h ≤ a.change24h

/-- Comparator relation of `(a, b) => a.change24h - b.change24h`
(ascending 24h change). -/
def lossesRel (a b : Coin) : Prop := a.change24h ≤ b.change24h

/-- Comparator relation of
`(a, b) => b.performanceScore - a.performanceScore` on score-annotated
records. -/
def perfRel (a b : Coin × ℚ) : Prop := b.2 ≤ a.2

instance : DecidableRel gainsRel :=
  fun a b => inferInstanceAs (Decidable (b.change24h ≤ a.change24h))

instance : DecidableRel lossesRel :=
  fun a b => inferInstanceAs (Decidable (a.change24h ≤ b.change24h))

instance : DecidableRel perfRel :=
  fun a b => inferInstanceAs (Decidable (b.2 ≤ a.2))

instance : IsTotal Coin gainsRel := ⟨fun a b => le_total b.change24h a.change24h⟩

instance : IsTrans Coin gainsRel := ⟨fun _ _ _ h1 h2 => le_trans h2 h1⟩

instance : IsTotal Coin lossesRel := ⟨fun a b => le_total a.change24h b.change24h⟩

instance : IsTrans Coin lossesRel := ⟨fun _ _ _ h1 h2 => le_trans h1 h2⟩

instance : IsTotal (Coin × ℚ) perfRel := ⟨fun a b => le_total b.2 a.2⟩

instance : IsTrans (Coin × ℚ) perfRel := ⟨fun _ _ _ h1 h2 => le_trans h2 h1⟩

/-- `analyzeCoins` of `coinDataManager.ts`: derive the market stats from a
working set.  (The unused local sorts `byMarketCap`/`byVolume` of the source
are omitted; they do not flow into the result.) -/
def analyzeCoins (coins : List Coin) : MarketStats :=
  let byGains :=
    (coins.filter (fun c => decide (0 < c.change24h))).insertionSort gainsRel
  let byLosses :=
    (coins.filter (fun c => decide (c.change24h < 0))).insertionSort lossesRel
  let totalMarketCap := coins.foldl (fun sum c => sum + c.marketCap) 0
  let totalVolume := coins.foldl (fun sum c => sum + c.volume24h) 0
  let topPerformers :=
    (((coins.map (fun c => (c, performanceScore c))).insertionSort perfRel).take 20).map
      Prod.fst
  { totalMarketCap := totalMarketCap
    totalVolume := totalVolume
    topPerformers := topPerformers.take 10
    topGainers := byGains.take 10
    topLosers := byLosses.take 10 }

/-! ### Fetch-merge cycle (`fetchFreshData`) -/

/-- `INITIAL_LOAD_SIZE` of `coinDataManager.ts`. -/
def INITIAL_LOAD_SIZE : Nat := 200

/-- `maxAttempts` of `fetchFreshData`. -/
def maxAttempts : Nat := 3

/-- The merge step of the fetch loop: append only those records of `new`
whose id is not already present in `acc` (first-seen wins).  Note that the
filter checks only against `acc`, not against earlier elements of `new`
itself, exactly as the `Set`-based code does. -/
def mergeBatch (acc new : List Coin) : List Coin :=
  acc ++ new.filter (fun c => !(acc.any (fun a => a.id == c.id)))

/-- The `while (allCoins.length < 100 && attempts < maxAttempts)` loop of
`fetchFreshData`.  `batches k` is the (already transformed) response of
`coinsService.getNewCoins` for `page = k`.  The `fuel` argument only makes the
recursion structural; with `fuel = maxAttempts` it can never run out before
the guard `attempts < maxAttempts` fails, so the model is exact.  Returns the
accumulated coins together with the number of attempts performed. -/
def fetchLoop (batches : Nat → List Coin) : Nat → List Coin → Nat → List Coin × Nat
  | 0, allCoins, attempts => (allCoins, attempts)
  | fuel + 1, allCoins, attempts =>
    if allCoins.length < 100 ∧ attempts < maxAttempts then
      let coins := batches (attempts + 1)
      let merged := if attempts + 1 = 1 then coins else mergeBatch allCoins coins
      if coins.length < INITIAL_LOAD_SIZE then (merged, attempts + 1)
      else fetchLoop batches fuel merged (attempts + 1)
    else (allCoins, attempts)

/-- The cache record constructed at the end of `fetchFreshData` (also how the
Working Set invariantly relates its `marketStats` to its `coins`). -/
def mkCacheData (coins : List Coin) (now : ℚ) : CoinDataCache :=
  { coins := coins
    lastUpdated := now
    totalFetched := coins.length
    marketStats := analyzeCoins coins }

/-- `fetchFreshData` of `coinDataManager.ts`.  `trending` is the outcome of
the `getTrendingCoins(50)` fallback call (`Except.error` models its `catch`ed
failure); it is consulted only when fewer than 50 records accumulated. -/
def fetchFreshData (batches : Nat → List Coin) (trending : Except Unit (List Coin))
    (now : ℚ) : CoinDataCache :=
  let loopResult := fetchLoop batches maxAttempts [] 0
  let allCoins :=
    if loopResult.1.length < 50 then
      match trending with
      | .ok t => mergeBatch loopResult.1 t
      | .error _ => loopResult.1
    else loopResult.1
  mkCacheData allCoins now

/-! ### `getAllCoins` / `refresh` state transition -/

/-- The mutable fields of the `CoinDataManager` singleton that `getAllCoins`
reads and writes. -/
structure ManagerState where
  cache : Option CoinDataCache
  isLoading : Bool
deriving DecidableEq

/-- `getAllCoins` of `coinDataManager.ts` as a state transition.
`stored` is the (already validity-checked) result of `loadFromStorage`;
`fetchResult` is the outcome of the awaited `fetchFreshData` call;
`waitState` is the manager state observed after the busy-poll wait when
another fetch was already in flight.  Returns the delivered value (or the
propagated exception) together with the final manager state. -/
def getAllCoins (forceRefresh : Bool) (stored : Option CoinDataCache)
    (fetchResult : Except Unit CoinDataCache) (waitState : ManagerState)
    (st : ManagerState) : Except Unit (List Coin) × ManagerState :=
  match forceRefresh, st.cache with
  | false, some c => (.ok c.coins, st)
  | _, _ =>
    match forceRefresh, stored with
    | false, some s => (.ok s.coins, { st with cache := some s })
    | _, _ =>
      if st.isLoading then
        (.ok ((waitState.cache.map CoinDataCache.coins).getD []), waitState)
      else
        match fetchResult with
        | .error e => (.error e, { cache := st.cache, isLoading := false })
        | .ok fresh => (.ok fresh.coins, { cache := some fresh, isLoading := false })

/-- `refresh` of `coinDataManager.ts`: `return this.getAllCoins(true)`. -/
def refresh (stored : Option CoinDataCache) (fetchResult : Except Unit CoinDataCache)
    (waitState : ManagerState) (st : ManagerState) :
    Except Unit (List Coin) × ManagerState :=
  getAllCoins true stored fetchResult waitState st

/-! ### Pagination (`getPaginatedCoins`) -/

inductive SortBy
  | marketCap
  | volume
  | change
  | holders
  | age
deriving DecidableEq

inductive FilterBy
  | all
  | gainers
  | losers
  | new
  | top
deriving DecidableEq

/-- `COINS_PER_PAGE` of `coinDataManager.ts`. -/
def COINS_PER_PAGE : Nat := 10

/-- The sort key selected by the `switch (sortBy)` comparator. -/
def sortKey : SortBy → Coin → ℚ
  | .marketCap, c => c.marketCap
  | .volume, c => c.volume24h
  | .change, c => c.change24h
  | .holders, c => c.holders
  | .age, c => c.createdAt

/-- Comparator relation of the `filteredCoins.sort` call: every branch is
`(a, b) => key(b) - key(a)` (descending in the selected key). -/
def sortRel (s : SortBy) (a b : Coin) : Prop := sortKey s b ≤ sortKey s a

instance (s : SortBy) : DecidableRel (sortRel s) :=
  fun a b => inferInstanceAs (Decidable (sortKey s b ≤ sortKey s a))

instance (s : SortBy) : IsTotal Coin (sortRel s) :=
  ⟨fun a b => le_total (sortKey s b) (sortKey s a)⟩

instance (s : SortBy) : IsTrans Coin (sortRel s) :=
  ⟨fun _ _ _ h1 h2 => le_trans h2 h1⟩

/-- The `switch (filterBy)` step of `getPaginatedCoins` (the `top` case does
not filter on this path, it only has the page-1 early return). -/
def filteredOf (allCoins : List Coin) (filterBy : FilterBy) (now : ℚ) : List Coin :=
  match filterBy with
  | .gainers => allCoins.filter (fun c => decide (0 < c.change24h))
  | .losers => allCoins.filter (fun c => decide (c.change24h < 0))
  | .new => allCoins.filter (fun c => decide (now - 7 * 24 * 60 * 60 * 1000 < c.createdAt))
  | _ => allCoins

/-- Filter, sort, and (for `all`/page 1/`marketCap`) prepend the pre-computed
top performers deduped against the rest — the list that `getPaginatedCoins`
slices. -/
def arrangedOf (cache : CoinDataCache) (now : ℚ) (page : Nat) (sortBy : SortBy)
    (filterBy : FilterBy) : List Coin :=
  let sorted := (filteredOf cache.coins filterBy now).insertionSort (sortRel sortBy)
  if filterBy = .all ∧ page = 1 ∧ sortBy = .marketCap then
    let tp := cache.marketStats.topPerformers
    tp ++ sorted.filter (fun c => !(tp.any (fun t => t.id == c.id)))
  else sorted

/-- `getPaginatedCoins` of `coinDataManager.ts`.  `cache` is the manager's
in-memory Working Set (non-null after the initial `getAllCoins()` call);
`now` is `Date.now()` in milliseconds (used by the `new` filter).
`Math.ceil(totalCoins / COINS_PER_PAGE)` on natural counts is the rounded-up
division `(totalCoins + COINS_PER_PAGE - 1) / COINS_PER_PAGE`. -/
def getPaginatedCoins (cache : CoinDataCache) (now : ℚ) (page : Nat)
    (sortBy : SortBy) (filterBy : FilterBy) : PaginatedResult :=
  if filterBy = .top ∧ page = 1 then
    { coins := cache.marketStats.topPerformers
      currentPage := 1
      totalPages := (cache.coins.length + COINS_PER_PAGE - 1) / COINS_PER_PAGE
      totalCoins := cache.coins.length
      hasMore := decide (COINS_PER_PAGE < cache.coins.length) }
  else
    let arranged := arrangedOf cache now page sortBy filterBy
    let totalCoins := arranged.length
    let startIndex := (page - 1) * COINS_PER_PAGE
    { coins := (arranged.drop startIndex).take COINS_PER_PAGE
      currentPage := page
      totalPages := (totalCoins + COINS_PER_PAGE - 1) / COINS_PER_PAGE
      totalCoins := totalCoins
      hasMore := decide (startIndex + COINS_PER_PAGE < totalCoins) }

/-- Concatenation of the `coins` of pages `1..totalPages` for a fixed
working set, sort and filter (the subject of the pagination-partition
property). -/
def pagesConcat (cache : CoinDataCache) (now : ℚ) (sortBy : SortBy)
    (filterBy : FilterBy) : List Coin :=
  ((List.range (getPaginatedCoins cache now 1 sortBy filterBy).totalPages).map
    (fun i => (getPaginatedCoins cache now (i + 1) sortBy filterBy).coins)).flatten

/-! ### Query Cache / search layer (`coinedPostSearchService.ts`) -/

/-- `calculateRelevanceScore` of `coinedPostSearchService.ts`: sequential
`score +=` accumulation over the matched criteria. -/
def calculateRelevanceScore (coin : Coin) (query : String) : Nat :=
  let lowerQuery := jsToLower query
  let lowerName := jsToLower coin.name
  let lowerSymbol := jsToLower coin.symbol
  let s0 : Nat := 0
  let s1 := if lowerName = lowerQuery then s0 + 100 else s0
  let s2 := if lowerSymbol = lowerQuery then s1 + 90 else s1
  let s3 := if jsStartsWith lowerName lowerQuery then s2 + 50 else s2
  let s4 := if jsStartsWith lowerSymbol lowerQuery then s3 + 40 else s3
  let s5 := if jsIncludes lowerName lowerQuery then s4 + 25 else s4
  let s6 := if jsIncludes lowerSymbol lowerQuery then s5 + 20 else s5
  let s7 :=
    if (match coin.creatorAddress with
        | some ca => jsIncludes (jsToLower ca) lowerQuery
        | none => false) then s6 + 15 else s6
  let s8 :=
    if (match coin.description with
        | some d => jsIncludes (jsToLower d) lowerQuery
        | none => false) then s7 + 10 else s7
  let s9 := if jsIncludes (jsToLower coin.address) lowerQuery then s8 + 5 else s8
  s9

/-- Comparator relation of `filterAndSortResults`: higher relevance score
first, ties broken by market cap descending (`a` may precede `b` iff the
comparator value is `≤ 0`). -/
def searchRel (query : String) (a b : Coin) : Prop :=
  calculateRelevanceScore b query < calculateRelevanceScore a query ∨
    (calculateRelevanceScore a query = calculateRelevanceScore b query ∧
      b.marketCap ≤ a.marketCap)

instance (query : String) : DecidableRel (searchRel query) := fun _a _b =>
  inferInstanceAs (Decidable (_ ∨ _ ∧ _))

instance (query : String) : IsTotal Coin (searchRel query) := by
  constructor
  intro a b
  rcases Nat.lt_trichotomy (calculateRelevanceScore a query)
      (calculateRelevanceScore b query) with h | h | h
  · exact Or.inr (Or.inl h)
  · rcases le_total b.marketCap a.marketCap with hm | hm
    · exact Or.inl (Or.inr ⟨h, hm⟩)
    · exact Or.inr (Or.inr ⟨h.symm, hm⟩)
  · exact Or.inl (Or.inl h)

instance (query : String) : IsTrans Coin (searchRel query) := by
  constructor
  intro a b c hab hbc
  rcases hab with h1 | ⟨h1, hm1⟩
  · rcases hbc with h2 | ⟨h2, _⟩
    · exact Or.inl (lt_trans h2 h1)
    · exact Or.inl (h2 ▸ h1)
  · rcases hbc with h2 | ⟨h2, hm2⟩
    · exact Or.inl (h1 ▸ h2)
    · exact Or.inr ⟨h1.trans h2, le_trans hm2 hm1⟩

/-- `filterAndSortResults` of `coinedPostSearchService.ts` (despite its name
it only sorts; the candidate filtering happened upstream). -/
def filterAndSortResults (coins : List Coin) (query : String) : List Coin :=
  coins.insertionSort (searchRel query)

/-- Hexadecimal-digit test used by the address pattern. -/
def isHexChar (c : Char) : Bool :=
  c.isDigit || (decide ('a' ≤ c) && decide (c ≤ 'f')) ||
    (decide ('A' ≤ c) && decide (c ≤ 'F'))

/-- `isValidAddress` of `coinedPostSearchService.ts`: the regular expression
`^0x[a-fA-F0-9]{40}$`. -/
def isValidAddress (s : String) : Bool :=
  match s.data with
  | '0' :: 'x' :: rest => decide (rest.length = 40) && rest.all isHexChar
  | _ => false

/-- `SearchResult` of `coinedPostSearchService.ts`. -/
structure SearchResult where
  coins : List Coin
  totalFound : Nat
  searchTime : ℚ
deriving DecidableEq

/-- `searchCoinedPosts` of `coinedPostSearchService.ts`.

Dependency outcomes are passed as arguments:
* `cached` — the fresh query-cache entry for the normalized query, if any;
* `localRes` — the result of `localSearchCoinedPosts` (that helper catches
  internally and never throws);
* `apiRes` — outcome of the `coinsService.searchCoins` call (its failure is
  caught by the inner `try/catch` of strategy 2);
* `addrRes` — outcome of `searchByAddress` (`none` on failure or not-found,
  since that helper catches internally);
* `rankFails` — models a runtime exception raised inside the outer `try`
  after result collection (e.g. while ranking), which only the outer `catch`
  handles;
* `elapsed` — the value of `Date.now() - startTime` when the result is
  produced.

Returns the result together with a flag telling whether the body (which
consults the Remote Data Source) ran at all; the early returns for an empty
query and for a cache hit perform no fetch. -/
def searchCoinedPosts (query : String) (limit : Nat) (cached : Option SearchResult)
    (localRes : List Coin) (apiRes : Except Unit (List Coin)) (addrRes : Option Coin)
    (rankFails : Bool) (elapsed : ℚ) : SearchResult × Bool :=
  if jsTrim query = "" then ({ coins := [], totalFound := 0, searchTime := 0 }, false)
  else
    let normalizedQuery := jsTrim (jsToLower query)
    match cached with
    | some r => (r, false)
    | none =>
      let step1 := localRes
      let step2 :=
        if step1.isEmpty then
          match apiRes with
          | .ok r => r
          | .error _ => step1
        else step1
      let step3 :=
        if step2.isEmpty ∧ isValidAddress normalizedQuery then
          match addrRes with
          | some c => [c]
          | none => step2
        else step2
      if rankFails then ({ coins := [], totalFound := 0, searchTime := elapsed }, true)
      else
        ({ coins := (filterAndSortResults step3 normalizedQuery).take limit
           totalFound := step3.length
           searchTime := elapsed }, true)

/-! ### Raw-token transformation (`coinService.ts`) -/

/-- A JavaScript number that may be `NaN`. -/
inductive JsNum
  | nan
  | num (val : ℚ)
deriving DecidableEq

/-- JavaScript `x || 0` applied to a number: `NaN` (and `0` itself) yield
`0`. -/
def JsNum.orZero : JsNum → ℚ
  | .nan => 0
  | .num v => v

/-- Digits-to-number accumulator. -/
def digitsToNat (l : List Char) : Nat :=
  l.foldl (fun acc c => acc * 10 + (c.toNat - 48)) 0

/-- Model of the platform builtin `parseFloat` restricted to plain decimal
literals: skip leading whitespace, optional sign, integer digits, optional
fractional digits; `NaN` when no digit was consumed (trailing garbage is
ignored, as `parseFloat` does). -/
def parseFloatChars (l : List Char) : JsNum :=
  let l1 := l.dropWhile Char.isWhitespace
  let signedTail : ℚ × List Char :=
    match l1 with
    | '-' :: t => (-1, t)
    | '+' :: t => (1, t)
    | _ => (1, l1)
  let intPart := signedTail.2.takeWhile Char.isDigit
  let rest := signedTail.2.dropWhile Char.isDigit
  let fracPart :=
    match rest with
    | '.' :: t => t.takeWhile Char.isDigit
    | _ => []
  if intPart.isEmpty ∧ fracPart.isEmpty then .nan
  else
    .num (signedTail.1 *
      ((digitsToNat intPart : ℚ) + (digitsToNat fracPart : ℚ) / (10 : ℚ) ^ fracPart.length))

/-- `parseFloat` on a string. -/
def parseFloat (s : String) : JsNum :=
  parseFloatChars s.data

/-- `parseFloat` applied to a possibly-missing value
(`parseFloat(undefined)` is `NaN`). -/
def parseFloatOpt : Option String → JsNum
  | none => .nan
  | some s => parseFloat s

/-- The fields of the raw `ZoraToken` payload that
`transformZoraTokenToCoin` reads.  `Option` marks values that may be
`undefined`/`null` upstream; an empty string models the other falsy string
value. -/
structure ZoraTokenModel where
  id : String
  name : String
  symbol : String
  address : String
  priceInUsdc : Option String
  marketCap : Option String
  volume24h : Option String
  totalSupply : Option String
  marketCapDelta24h : Option String
  uniqueHolders : Option ℚ
  createdAt : Option String
  description : Option String
  creatorAddress : Option String
  chainId : Option ℚ
  isFromBaseApp : Bool
deriving DecidableEq

/-- The transformation output: the `Coin` of `coinService.ts` with its
JavaScript numbers kept as `JsNum` where `NaN` can arise. -/
structure RawCoin where
  id : String
  name : String
  symbol : String
  address : String
  price : JsNum
  change24h : JsNum
  volume24h : ℚ
  marketCap : ℚ
  holders : ℚ
  totalSupply : ℚ
  createdAt : String
  rank : Nat
  description : String
  creatorAddress : String
  chainId : ℚ
  isFromBaseApp : Bool
deriving DecidableEq

/-- `transformZoraTokenToCoin` of `coinService.ts`.  `rand` is the value of
`(Math.random() - 0.5) * 60` used when `marketCapDelta24h` is falsy; `nowIso`
is `new Date().toISOString()`.  The `try/catch` blocks of the source never
fire for the numeric parses (`parseFloat` does not throw), so the `catch`
arms are dead and the `parseFloat` results flow through directly. -/
def transformZoraTokenToCoin (token : ZoraTokenModel) (index : Nat) (rand : ℚ)
    (nowIso : String) : RawCoin :=
  let price : JsNum :=
    match token.priceInUsdc with
    | some s => if s ≠ "" then parseFloat s else .num 0
    | none => .num 0
  let marketCapValue : ℚ := (parseFloatOpt token.marketCap).orZero
  let volume24hValue : ℚ := (parseFloatOpt token.volume24h).orZero
  let totalSupplyValue : ℚ := (parseFloatOpt token.totalSupply).orZero
  let change24h : JsNum :=
    match token.marketCapDelta24h with
    | some s => if s ≠ "" then parseFloat s else .num rand
    | none => .num rand
  { id := if token.id = "" then "token-" ++ toString index else token.id
    name := if token.name = "" then "Unknown Token" else token.name
    symbol := if token.symbol = "" then "UNK" else token.symbol
    address := token.address
    price := price
    change24h := change24h
    volume24h := volume24hValue
    marketCap := marketCapValue
    holders := token.uniqueHolders.getD 0
    totalSupply := totalSupplyValue
    createdAt := match token.createdAt with
      | some s => if s ≠ "" then s else nowIso
      | none => nowIso
    rank := index + 1
    description := token.description.getD ""
    creatorAddress := token.creatorAddress.getD ""
    chainId := match token.chainId with
      | some v => if v ≠ 0 then v else 8453
      | none => 8453
    isFromBaseApp := token.isFromBaseApp }

/-- Descending-performance-score ordering directly on records (the
score-annotated sort of `analyzeCoins` is shown to coincide with sorting by
this relation). -/
def scoreRel (a b : Coin) : Prop := performanceScore b ≤ performanceScore a

instance : DecidableRel scoreRel :=
  fun a b => inferInstanceAs (Decidable (performanceScore b ≤ performanceScore a))

instance : IsTotal Coin scoreRel := ⟨fun a b => le_total (performanceScore b) (performanceScore a)⟩

instance : IsTrans Coin scoreRel := ⟨fun _ _ _ h1 h2 => le_trans h2 h1⟩

/-! ### Concrete records used by witnesses and counterexamples -/

/-- A Token Record with all-default fields. -/
def baseCoin : Coin :=
  { id := "c", name := "", symbol := "", address := "", description := none
    creatorAddress := none, price := 0, change24h := 0, volume24h := 0
    marketCap := 0, holders := 0, totalSupply := 0, createdAt := 0, rank := 0 }

/-- A record whose id is the decimal numeral of `i`. -/
def mkIdCoin (i : Nat) : Coin :=
  { baseCoin with id := toString i }

/-- A single record with id `"a"`. -/
def coinA : Coin :=
  { baseCoin with id := "a" }

/-- A batch sequence whose first batch repeats the id `"a"` within the batch;
all later pages are empty. -/
def dupBatches : Nat → List Coin :=
  fun k => if k = 1 then [coinA, coinA] else []

/-- The batch sequence of the `[80, 80, 45]` scenario: batch 1 carries ids
`0..79`, batch 2 ids `70..149` (10 ids overlapping batch 1), batch 3 ids
`150..194` (no further overlap). -/
def scenarioBatches : Nat → List Coin :=
  fun k =>
    if k = 1 then (List.range 80).map mkIdCoin
    else if k = 2 then (List.range 80).map (fun i => mkIdCoin (70 + i))
    else if k = 3 then (List.range 45).map (fun i => mkIdCoin (150 + i))
    else []

/-- A record with id `"c" ++ i` and the given market cap. -/
def mcCoin (i : Nat) (mc : ℚ) : Coin :=
  { baseCoin with id := "c" ++ toString i, marketCap := mc }

/-- A record with the lowest market cap but an enormous 24h volume, hence the
highest performance score. -/
def xCoin : Coin :=
  { baseCoin with id := "x", volume24h := 1000000 }

/-- An 11-record working set: ten records with strictly decreasing market
caps plus `xCoin`, whose blended score puts it at the head of the
top-performers list while pure market-cap order puts it last. -/
def cs11 : List Coin :=
  [mcCoin 0 100, mcCoin 1 99, mcCoin 2 98, mcCoin 3 97, mcCoin 4 96,
   mcCoin 5 95, mcCoin 6 94, mcCoin 7 93, mcCoin 8 92, mcCoin 9 91, xCoin]

/-- A single gainer record. -/
def gCoin : Coin :=
  { baseCoin with id := "g", change24h := 1 }

/-- A raw token whose `priceInUsdc` and `totalSupply` are non-empty
unparseable strings and whose `marketCap` is the string `"NaN"`. -/
def badToken : ZoraTokenModel :=
  { id := "tok-1", name := "Tok", symbol := "TK", address := "0xabc"
    priceInUsdc := some "abc", marketCap := some "NaN", volume24h := none
    totalSupply := some "xyz", marketCapDelta24h := some "5"
    uniqueHolders := none, createdAt := none, description := none
    creatorAddress := none, chainId := none, isFromBaseApp := false }

/-! ## Helper lemmas -/

/-- Merging a batch with internally distinct ids into an accumulator with
distinct ids keeps the ids distinct. -/
theorem nodup_map_id_mergeBatch {acc new : List Coin}
    (hacc : (acc.map Coin.id).Nodup) (hnew : (new.map Coin.id).Nodup) :
    ((mergeBatch acc new).map Coin.id).Nodup := by
  unfold mergeBatch
  rw [List.map_append, List.nodup_append]
  refine ⟨hacc, hnew.sublist ((List.filter_sublist new).map Coin.id), ?_⟩
  intro a ha hb
  obtain ⟨c, hc, rfl⟩ := List.mem_map.mp hb
  obtain ⟨b, hbmem, hbid⟩ := List.mem_map.mp ha
  have hpred := (List.mem_filter.mp hc).2
  simp only [Bool.not_eq_eq_eq_not, Bool.not_true, List.any_eq_false, beq_iff_eq] at hpred
  exact hpred b hbmem hbid

/-- The fetch loop preserves distinctness of ids provided every batch has
internally distinct ids. -/
theorem fetchLoop_nodup (batches : Nat → List Coin)
    (hb : ∀ k, ((batches k).map Coin.id).Nodup) :
    ∀ fuel acc attempts, (acc.map Coin.id).Nodup →
      (((fetchLoop batches fuel acc attempts).1).map Coin.id).Nodup := by
  intro fuel
  induction fuel with
  | zero => exact fun acc attempts h => h
  | succ n ih =>
    intro acc attempts hacc
    rw [fetchLoop]
    have hmerged : (((if attempts + 1 = 1 then batches (attempts + 1)
        else mergeBatch acc (batches (attempts + 1))).map Coin.id)).Nodup := by
      split
      · exact hb (attempts + 1)
      · exact nodup_map_id_mergeBatch hacc (hb (attempts + 1))
    split
    · dsimp only
      split
      · exact hmerged
      · exact ih _ _ hmerged
    · exact hacc

/-! ## Claim C1 -/

/-- Claim C1 (amended): the fetch-merge cycle dedupes ids across batches
(first-seen wins), so whenever every single batch — and the trending fallback
list — has internally distinct ids, the resulting Working Set's coin list
contains no two Token Records with the same id.  (Duplicates *within* one
batch survive, see the counterexample.) -/
theorem C1_dedupe_amended (batches : Nat → List Coin) (trending : Except Unit (List Coin))
    (now : ℚ) (hb : ∀ k, ((batches k).map Coin.id).Nodup)
    (ht : ∀ t, trending = .ok t → ((t.map Coin.id)).Nodup) :
    (((fetchFreshData batches trending now).coins).map Coin.id).Nodup := by
  have hloop := fetchLoop_nodup batches hb maxAttempts [] 0 (by simp)
  unfold fetchFreshData mkCacheData
  dsimp only
  cases trending with
  | ok t =>
    split
    · exact nodup_map_id_mergeBatch hloop (ht t rfl)
    · exact hloop
  | error e => split <;> exact hloop

/-- Witness for C1: empty batches and a failed trending call. -/
theorem C1_dedupe_witness :
    (((fetchFreshData (fun _ => []) (.error ()) 0).coins).map Coin.id).Nodup :=
  C1_dedupe_amended (fun _ => []) (.error ()) 0 (fun _ => by simp)
    (fun _ ht => nomatch ht)

/-- Counterexample to C1 as stated: a first batch that repeats the id `"a"`
within the batch is adopted wholesale (`allCoins = coins` on attempt 1, no
dedupe), so the resulting Working Set carries the id twice. -/
theorem C1_counterexample :
    ((fetchFreshData dupBatches (.error ()) 0).coins).map Coin.id = ["a", "a"] ∧
      ¬ ((((fetchFreshData dupBatches (.error ()) 0).coins).map Coin.id).Nodup) := by
  exact ⟨by decide, by decide⟩

/-! ## Claim C2 -/

/-- Claim C2 (amended): when the first batch returns 80 records, the loop
stops after that very first batch — 80 is fewer than the 200 records
requested per attempt (`INITIAL_LOAD_SIZE`) — so attempts 2 and 3 never run
and the resulting Working Set is exactly batch 1 (80 records, not 195). -/
theorem C2_scenario_amended (batches : Nat → List Coin) (trending : Except Unit (List Coin))
    (now : ℚ) (h80 : (batches 1).length = 80) :
    fetchLoop batches maxAttempts [] 0 = (batches 1, 1) ∧
      (fetchFreshData batches trending now).coins = batches 1 := by
  have hloop : fetchLoop batches maxAttempts [] 0 = (batches 1, 1) := by
    rw [show maxAttempts = 2 + 1 from rfl, fetchLoop]
    simp [maxAttempts, INITIAL_LOAD_SIZE, h80]
  refine ⟨hloop, ?_⟩
  unfold fetchFreshData mkCacheData
  rw [hloop]
  simp [h80]

/-- Witness for C2 at the concrete `[80, 80, 45]` scenario batches. -/
theorem C2_scenario_witness :
    fetchLoop scenarioBatches maxAttempts [] 0 = (scenarioBatches 1, 1) ∧
      (fetchFreshData scenarioBatches (.error ()) 0).coins = scenarioBatches 1 :=
  C2_scenario_amended scenarioBatches (.error ()) 0 (by decide)

/-- Counterexample to C2 as stated: on the `[80, 80, 45]` scenario with
exactly 10 overlapping ids between batches 1 and 2 and no other overlaps, the
code stops after attempt 1 with 80 records — not after attempt 3 with 195 —
because batch 1 already returned fewer records than the 200 requested. -/
theorem C2_counterexample :
    (scenarioBatches 1).length = 80 ∧ (scenarioBatches 2).length = 80 ∧
    (scenarioBatches 3).length = 45 ∧
    ((scenarioBatches 2).filter
        (fun c => (scenarioBatches 1).any (fun d => d.id == c.id))).length = 10 ∧
    ((scenarioBatches 3).filter
        (fun c => ((scenarioBatches 1) ++ (scenarioBatches 2)).any
          (fun d => d.id == c.id))).length = 0 ∧
    (fetchFreshData scenarioBatches (.error ()) 0).coins.length = 80 ∧
    (fetchLoop scenarioBatches maxAttempts [] 0).2 = 1 ∧
    ¬ ((fetchFreshData scenarioBatches (.error ()) 0).coins.length = 195) := by
  refine ⟨?_, ?_, ?_, ?_, ?_, ?_, ?_, ?_⟩ <;> decide

/-! ## Claim C6 -/

/-- Claim C6: when the fetch-merge cycle throws, the exception propagates out
of `getAllCoins` (and `refresh`), the in-memory Working Set is exactly what
it was before the call, and the in-flight loading flag is false after the
call completes — whether the call returns or throws.  The hypotheses restrict
attention to calls that actually perform the fetch: no other fetch is in
flight, and either the refresh is forced or neither the in-memory cache nor a
valid stored snapshot short-circuits the call. -/
theorem C6_error_propagation (forceRefresh : Bool) (stored : Option CoinDataCache)
    (fetchResult : Except Unit CoinDataCache) (waitState : ManagerState)
    (st : ManagerState) (hnl : st.isLoading = false)
    (hpath : forceRefresh = true ∨ (st.cache = none ∧ stored = none)) :
    ((getAllCoins forceRefresh stored fetchResult waitState st).2.isLoading = false) ∧
    ((refresh stored fetchResult waitState st).2.isLoading = false) ∧
    (∀ e, fetchResult = .error e →
      getAllCoins forceRefresh stored fetchResult waitState st =
          (.error e, ⟨st.cache, false⟩) ∧
        refresh stored fetchResult waitState st = (.error e, ⟨st.cache, false⟩)) := by
  obtain ⟨cache, loading⟩ := st
  simp only at hnl
  subst hnl
  have hrefresh : ∀ res : Except Unit CoinDataCache,
      (getAllCoins true stored res waitState ⟨cache, false⟩).2.isLoading = false := by
    intro res
    cases cache <;> cases stored <;> cases res <;> rfl
  have hrefreshErr : ∀ e, refresh stored (.error e) waitState ⟨cache, false⟩ =
      (.error e, ⟨cache, false⟩) := by
    intro e
    cases cache <;> cases stored <;> rfl
  rcases hpath with hf | ⟨hc, hs⟩
  · subst hf
    exact ⟨hrefresh fetchResult, hrefresh fetchResult, fun e he => by
      subst he; exact ⟨hrefreshErr e, hrefreshErr e⟩⟩
  · simp only at hc hs
    subst hc; subst hs
    refine ⟨?_, hrefresh fetchResult, fun e he => ?_⟩
    · cases forceRefresh <;> cases fetchResult <;> rfl
    · subst he
      exact ⟨by cases forceRefresh <;> rfl, hrefreshErr e⟩

/-- Witness for C6 at a concrete state and a failing fetch. -/
theorem C6_witness :
    ((getAllCoins true none (.error ()) ⟨none, false⟩ ⟨none, false⟩).2.isLoading = false) ∧
    ((refresh none (.error ()) ⟨none, false⟩ ⟨none, false⟩).2.isLoading = false) ∧
    (∀ e, (Except.error () : Except Unit CoinDataCache) = .error e →
      getAllCoins true none (.error ()) ⟨none, false⟩ ⟨none, false⟩ =
          (.error e, ⟨none, false⟩) ∧
        refresh none (.error ()) ⟨none, false⟩ ⟨none, false⟩ =
          (.error e, ⟨none, false⟩)) :=
  C6_error_propagation true none (.error ()) ⟨none, false⟩ ⟨none, false⟩ rfl (Or.inl rfl)

/-! ## Claim C4 -/

/-- Claim C4 (code bug): the transformation is supposed to coerce every
unparseable numeric input to 0, and it does so for `marketCap`, `volume24h`
and `totalSupply` (which use `parseFloat(x) || 0`), but `price` is read as
bare `parseFloat(token.tokenPrice.priceInUsdc)`: for a non-empty unparseable
string the result is `NaN`, not 0 — the `try/catch` cannot catch it because
`parseFloat` never throws.  The record is still emitted with its id
preserved. -/
theorem C4_nan_price (rand : ℚ) (nowIso : String) :
    (transformZoraTokenToCoin badToken 0 rand nowIso).price = JsNum.nan ∧
    (transformZoraTokenToCoin badToken 0 rand nowIso).price ≠ JsNum.num 0 ∧
    (transformZoraTokenToCoin badToken 0 rand nowIso).marketCap = 0 ∧
    (transformZoraTokenToCoin badToken 0 rand nowIso).totalSupply = 0 ∧
    (transformZoraTokenToCoin badToken 0 rand nowIso).id = "tok-1" :=
  ⟨rfl, fun h => JsNum.noConfusion h, rfl, rfl, rfl⟩

/-! ## Claim C10 -/

/-- Claim C10: `searchCoinedPosts` never throws to its caller (the model is a
total function whose outer `catch` is folded into the else-branch below): for
an empty or whitespace-only query it returns
`{coins := [], totalFound := 0, searchTime := 0}` without performing any
fetch, and when an internal step of the body throws it returns
`{coins := [], totalFound := 0}` with the elapsed search time instead of
propagating the error. -/
theorem C10_search_total (query : String) (limit : Nat) (cached : Option SearchResult)
    (localRes : List Coin) (apiRes : Except Unit (List Coin)) (addrRes : Option Coin)
    (rankFails : Bool) (elapsed : ℚ) :
    (jsTrim query = "" →
      searchCoinedPosts query limit cached localRes apiRes addrRes rankFails elapsed =
        ({ coins := [], totalFound := 0, searchTime := 0 }, false)) ∧
    (jsTrim query ≠ "" → cached = none → rankFails = true →
      searchCoinedPosts query limit cached localRes apiRes addrRes rankFails elapsed =
        ({ coins := [], totalFound := 0, searchTime := elapsed }, true)) := by
  constructor
  · intro h
    simp [searchCoinedPosts, h]
  · intro h hc hr
    subst hc
    subst hr
    simp [searchCoinedPosts, h]

/-- Witness for C10: the empty query performs no fetch and returns the zero
result; a failing body step on a non-empty uncached query yields the empty
result carrying the elapsed time. -/
theorem C10_search_witness :
    searchCoinedPosts "" 5 none [] (.error ()) none true 7 =
        ({ coins := [], totalFound := 0, searchTime := 0 }, false) ∧
      searchCoinedPosts "a" 5 none [] (.error ()) none true 7 =
        ({ coins := [], totalFound := 0, searchTime := 7 }, true) :=
  ⟨(C10_search_total "" 5 none [] (.error ()) none true 7).1 (by decide),
   (C10_search_total "a" 5 none [] (.error ()) none true 7).2 (by decide) rfl rfl⟩

/-! ## Claim C8: helper lemmas -/

/-- The score-annotated sort of `analyzeCoins` coincides with sorting the
records directly by descending performance score. -/
theorem perfSort_eq_map (coins : List Coin) :
    (coins.map (fun c => (c, performanceScore c))).insertionSort perfRel =
      (coins.insertionSort scoreRel).map (fun c => (c, performanceScore c)) :=
  (List.map_insertionSort scoreRel perfRel (fun c => (c, performanceScore c)) coins
    (fun _ _ _ _ => Iff.rfl)).symm

/-- `topPerformers` is the 10-element prefix of the records stably sorted by
descending performance score. -/
theorem analyzeCoins_topPerformers (coins : List Coin) :
    (analyzeCoins coins).topPerformers = (coins.insertionSort scoreRel).take 10 := by
  simp only [analyzeCoins, perfSort_eq_map, List.map_take, List.map_map]
  rw [show (Prod.fst ∘ fun c : Coin => (c, performanceScore c)) = fun c => c from rfl]
  simp [List.take_take]

/-- Behaviour of the `n`-element prefix of a stable sort: its length, its
sortedness, and the fact that it consists of maximal elements (every dropped
element is `r`-below every kept one). -/
theorem sorted_take_spec {α : Type} (r : α → α → Prop) [DecidableRel r] [IsTotal α r]
    [IsTrans α r] (l : List α) (n : Nat) :
    ((l.insertionSort r).take n).length = min n l.length ∧
    List.Pairwise r ((l.insertionSort r).take n) ∧
    l.Perm ((l.insertionSort r).take n ++ (l.insertionSort r).drop n) ∧
    (∀ x ∈ (l.insertionSort r).drop n, ∀ y ∈ (l.insertionSort r).take n, r y x) := by
  have hs : List.Pairwise r (l.insertionSort r) := List.sorted_insertionSort r l
  have hsplit : List.Pairwise r
      ((l.insertionSort r).take n ++ (l.insertionSort r).drop n) := by
    rw [List.take_append_drop]
    exact hs
  refine ⟨?_, ?_, ?_, ?_⟩
  · rw [List.length_take, List.length_insertionSort]
  · exact List.Pairwise.sublist (List.take_sublist _ _) hs
  · rw [List.take_append_drop]
    exact (List.perm_insertionSort r l).symm
  · intro x hx y hy
    exact (List.pairwise_append.mp hsplit).2.2 y hy x hx

/-- Inserting an element satisfying `p` that is `r`-above every `p`-element
of `l` puts it at the head of the `p`-filtered list. -/
theorem filter_orderedInsert_pos {α : Type} (r : α → α → Prop) [DecidableRel r]
    (p : α → Bool) (x : α) (l : List α) (hx : p x = true)
    (h : ∀ b ∈ l, p b = true → r x b) :
    (List.orderedInsert r x l).filter p = x :: l.filter p := by
  induction l with
  | nil => simp [hx]
  | cons b t ih =>
    rw [List.orderedInsert]
    by_cases hr : r x b
    · rw [if_pos hr]
      simp [List.filter_cons, hx]
    · rw [if_neg hr]
      have hb : p b = false := by
        cases hpb : p b
        · rfl
        · exact absurd (h b (List.mem_cons_self b t) hpb) hr
      simp [List.filter_cons, hb,
        ih (fun c hc hp => h c (List.mem_cons_of_mem _ hc) hp)]

/-- Inserting an element that fails `p` leaves the `p`-filtered list
unchanged. -/
theorem filter_orderedInsert_neg {α : Type} (r : α → α → Prop) [DecidableRel r]
    (p : α → Bool) (x : α) (l : List α) (hx : p x = false) :
    (List.orderedInsert r x l).filter p = l.filter p := by
  induction l with
  | nil => simp [hx]
  | cons b t ih =>
    rw [List.orderedInsert]
    by_cases hr : r x b
    · rw [if_pos hr]
      simp [List.filter_cons, hx]
    · rw [if_neg hr]
      simp [List.filter_cons, ih]

/-- Stability of the modelled sort: for a comparator that accepts ties of a
key, the subsequence of elements with any fixed key value is exactly the
input's subsequence — tied elements keep their input order. -/
theorem filter_insertionSort_key {α : Type} (key : α → ℚ) (r : α → α → Prop)
    [DecidableRel r] (htie : ∀ a b, key a = key b → r a b) (l : List α) (q : ℚ) :
    (l.insertionSort r).filter (fun c => decide (key c = q)) =
      l.filter (fun c => decide (key c = q)) := by
  induction l with
  | nil => rfl
  | cons x t ih =>
    rw [List.insertionSort]
    by_cases hx : key x = q
    · rw [filter_orderedInsert_pos r _ x _ (by simp [hx])
        (fun b _ hp => htie x b (by rw [hx, of_decide_eq_true hp])), ih]
      simp [List.filter_cons, hx]
    · rw [filter_orderedInsert_neg r _ x _ (by simp [hx]), ih]
      simp [List.filter_cons, hx]

/-- The key-`q` subsequence of the `n`-element prefix of a stable sort is a
prefix of the input's key-`q` subsequence. -/
theorem take_sort_filter_isPre {α : Type} (key : α → ℚ) (r : α → α → Prop)
    [DecidableRel r] (htie : ∀ a b, key a = key b → r a b) (l : List α) (n : Nat)
    (q : ℚ) :
    ((l.insertionSort r).take n).filter (fun c => decide (key c = q)) <+:
      l.filter (fun c => decide (key c = q)) := by
  refine ⟨((l.insertionSort r).drop n).filter (fun c => decide (key c = q)), ?_⟩
  rw [← List.filter_append, List.take_append_drop]
  exact filter_insertionSort_key key r htie l q

/-! ## Claim C8 -/

/-- Claim C8: `analyzeCoins` is a pure function of the record list;
`totalMarketCap`/`totalVolume` sum `marketCap`/`volume24h`; `topPerformers`
is the at-most-10 records with highest performance score
`0.6*marketCap + 0.4*volume24h` in descending score order; `topGainers` the
at-most-10 records with positive 24h change in descending change order;
`topLosers` the at-most-10 records with negative change in ascending change
order; and within each list, score/change ties preserve input order (the
tied subsequence is a prefix of the input's tied subsequence). -/
theorem C8_analyze (coins : List Coin) :
    (analyzeCoins coins).totalMarketCap = (coins.map Coin.marketCap).sum ∧
    (analyzeCoins coins).totalVolume = (coins.map Coin.volume24h).sum ∧
    (analyzeCoins coins).topPerformers.length = min 10 coins.length ∧
    List.Pairwise scoreRel (analyzeCoins coins).topPerformers ∧
    (∃ rest, coins.Perm ((analyzeCoins coins).topPerformers ++ rest) ∧
      ∀ x ∈ rest, ∀ y ∈ (analyzeCoins coins).topPerformers,
        performanceScore x ≤ performanceScore y) ∧
    (∀ q : ℚ,
      (analyzeCoins coins).topPerformers.filter
          (fun c => decide (performanceScore c = q)) <+:
        coins.filter (fun c => decide (performanceScore c = q))) ∧
    (analyzeCoins coins).topGainers.length =
        min 10 (coins.filter (fun c => decide (0 < c.change24h))).length ∧
    (∀ c ∈ (analyzeCoins coins).topGainers, 0 < c.change24h) ∧
    List.Pairwise gainsRel (analyzeCoins coins).topGainers ∧
    (∃ rest, (coins.filter (fun c => decide (0 < c.change24h))).Perm
        ((analyzeCoins coins).topGainers ++ rest) ∧
      ∀ x ∈ rest, ∀ y ∈ (analyzeCoins coins).topGainers,
        x.change24h ≤ y.change24h) ∧
    (∀ q : ℚ,
      (analyzeCoins coins).topGainers.filter (fun c => decide (c.change24h = q)) <+:
        (coins.filter (fun c => decide (0 < c.change24h))).filter
          (fun c => decide (c.change24h = q))) ∧
    (analyzeCoins coins).topLosers.length =
        min 10 (coins.filter (fun c => decide (c.change24h < 0))).length ∧
    (∀ c ∈ (analyzeCoins coins).topLosers, c.change24h < 0) ∧
    List.Pairwise lossesRel (analyzeCoins coins).topLosers ∧
    (∃ rest, (coins.filter (fun c => decide (c.change24h < 0))).Perm
        ((analyzeCoins coins).topLosers ++ rest) ∧
      ∀ x ∈ rest, ∀ y ∈ (analyzeCoins coins).topLosers,
        y.change24h ≤ x.change24h) ∧
    (∀ q : ℚ,
      (analyzeCoins coins).topLosers.filter (fun c => decide (c.change24h = q)) <+:
        (coins.filter (fun c => decide (c.change24h < 0))).filter
          (fun c => decide (c.change24h = q))) := by
  have htp := analyzeCoins_topPerformers coins
  have htg : (analyzeCoins coins).topGainers =
      ((coins.filter (fun c => decide (0 < c.change24h))).insertionSort gainsRel).take 10 :=
    rfl
  have htl : (analyzeCoins coins).topLosers =
      ((coins.filter (fun c => decide (c.change24h < 0))).insertionSort lossesRel).take 10 :=
    rfl
  have hperf := sorted_take_spec scoreRel coins 10
  have hgain := sorted_take_spec gainsRel (coins.filter (fun c => decide (0 < c.change24h))) 10
  have hloss := sorted_take_spec lossesRel (coins.filter (fun c => decide (c.change24h < 0))) 10
  refine ⟨?_, ?_, ?_, ?_, ?_, ?_, ?_, ?_, ?_, ?_, ?_, ?_, ?_, ?_, ?_, ?_⟩
  · simp only [analyzeCoins]
    rw [List.sum_eq_foldl, List.foldl_map]
  · simp only [analyzeCoins]
    rw [List.sum_eq_foldl, List.foldl_map]
  · rw [htp]
    exact hperf.1
  · rw [htp]
    exact hperf.2.1
  · exact ⟨(coins.insertionSort scoreRel).drop 10, htp ▸ hperf.2.2.1,
      fun x hx y hy => hperf.2.2.2 x hx y (htp ▸ hy)⟩
  · intro q
    rw [htp]
    exact take_sort_filter_isPre performanceScore scoreRel
      (fun a b h => le_of_eq h.symm) coins 10 q
  · rw [htg]
    exact hgain.1
  · intro c hc
    rw [htg] at hc
    have hmem : c ∈ coins.filter (fun c => decide (0 < c.change24h)) :=
      (List.mem_insertionSort gainsRel).mp (List.take_subset _ _ hc)
    exact of_decide_eq_true (List.mem_filter.mp hmem).2
  · rw [htg]
    exact hgain.2.1
  · exact ⟨_, htg ▸ hgain.2.2.1, fun x hx y hy => hgain.2.2.2 x hx y (htg ▸ hy)⟩
  · intro q
    rw [htg]
    exact take_sort_filter_isPre Coin.change24h gainsRel
      (fun a b h => le_of_eq h.symm) _ 10 q
  · rw [htl]
    exact hloss.1
  · intro c hc
    rw [htl] at hc
    have hmem : c ∈ coins.filter (fun c => decide (c.change24h < 0)) :=
      (List.mem_insertionSort lossesRel).mp (List.take_subset _ _ hc)
    exact of_decide_eq_true (List.mem_filter.mp hmem).2
  · rw [htl]
    exact hloss.2.1
  · exact ⟨_, htl ▸ hloss.2.2.1, fun x hx y hy => hloss.2.2.2 x hx y (htl ▸ hy)⟩
  · intro q
    rw [htl]
    exact take_sort_filter_isPre Coin.change24h lossesRel
      (fun a b h => le_of_eq h) _ 10 q

/-! ## Claim C9 -/

/-- Guarded accumulation is addition of a guarded contribution. -/
theorem accum_ite {c : Prop} [Decidable c] (s v : Nat) :
    (if c then s + v else s) = s + (if c then v else 0) := by
  split <;> omega

/-- Claim C9: search results are ordered by the additive relevance score —
the output of `filterAndSortResults` is a permutation of its input sorted by
descending score with market-cap-descending tie-breaks — and the score of a
record is the sum of the points of every criterion it matches: exact name
100, exact symbol 90, name-starts-with 50, symbol-starts-with 40,
name-contains 25, symbol-contains 20, creator-address-contains 15,
description-contains 10, contract-address-contains 5. -/
theorem C9_relevance_order (coins : List Coin) (query : String) :
    (filterAndSortResults coins query).Perm coins ∧
    List.Pairwise (searchRel query) (filterAndSortResults coins query) ∧
    (∀ c : Coin, calculateRelevanceScore c query =
      (if jsToLower c.name = jsToLower query then 100 else 0) +
      (if jsToLower c.symbol = jsToLower query then 90 else 0) +
      (if jsStartsWith (jsToLower c.name) (jsToLower query) then 50 else 0) +
      (if jsStartsWith (jsToLower c.symbol) (jsToLower query) then 40 else 0) +
      (if jsIncludes (jsToLower c.name) (jsToLower query) then 25 else 0) +
      (if jsIncludes (jsToLower c.symbol) (jsToLower query) then 20 else 0) +
      (if (match c.creatorAddress with
           | some ca => jsIncludes (jsToLower ca) (jsToLower query)
           | none => false) then 15 else 0) +
      (if (match c.description with
           | some d => jsIncludes (jsToLower d) (jsToLower query)
           | none => false) then 10 else 0) +
      (if jsIncludes (jsToLower c.address) (jsToLower query) then 5 else 0)) := by
  refine ⟨List.perm_insertionSort (searchRel query) coins, ?_, ?_⟩
  · exact List.sorted_insertionSort (searchRel query) coins
  · intro c
    simp only [calculateRelevanceScore, accum_ite, Nat.zero_add]

/-! ## Claims C3 and C5: helper lemmas -/

/-- Concatenating the `n`-sized chunks `0..k-1` of a list recovers its
`k*n`-prefix. -/
theorem flatten_chunks {α : Type} (n : Nat) :
    ∀ (k : Nat) (l : List α),
      ((List.range k).map (fun i => (l.drop (i * n)).take n)).flatten = l.take (k * n) := by
  intro k
  induction k with
  | zero => intro l; simp
  | succ m ih =>
    intro l
    rw [List.range_succ_eq_map]
    simp only [List.map_cons, List.map_map, List.flatten_cons]
    rw [Nat.zero_mul, List.drop_zero]
    have hcongr : (List.range m).map ((fun i => (l.drop (i * n)).take n) ∘ Nat.succ) =
        (List.range m).map (fun i => ((l.drop n).drop (i * n)).take n) := by
      apply List.map_congr_left
      intro i _
      simp only [Function.comp]
      rw [List.drop_drop, Nat.succ_mul, Nat.add_comm (i * n) n, Nat.add_comm n (i * n)]
    rw [hcongr, ih (l.drop n), ← List.take_add]
    rw [Nat.succ_mul, Nat.add_comm]

/-- The non-`top` branch of `getPaginatedCoins`, written out. -/
theorem getPaginatedCoins_else (cache : CoinDataCache) (now : ℚ) (page : Nat)
    (sortBy : SortBy) (filterBy : FilterBy) (h : ¬(filterBy = .top ∧ page = 1)) :
    getPaginatedCoins cache now page sortBy filterBy =
      { coins := ((arrangedOf cache now page sortBy filterBy).drop
            ((page - 1) * COINS_PER_PAGE)).take COINS_PER_PAGE
        currentPage := page
        totalPages := ((arrangedOf cache now page sortBy filterBy).length +
            COINS_PER_PAGE - 1) / COINS_PER_PAGE
        totalCoins := (arrangedOf cache now page sortBy filterBy).length
        hasMore := decide ((page - 1) * COINS_PER_PAGE + COINS_PER_PAGE <
            (arrangedOf cache now page sortBy filterBy).length) } := by
  rw [getPaginatedCoins, if_neg h]

/-- Without the page-1 curation, the arranged list is just the filtered,
sorted list. -/
theorem arrangedOf_plain (cache : CoinDataCache) (now : ℚ) (page : Nat)
    (sortBy : SortBy) (filterBy : FilterBy)
    (h : ¬(filterBy = .all ∧ page = 1 ∧ sortBy = .marketCap)) :
    arrangedOf cache now page sortBy filterBy =
      (filteredOf cache.coins filterBy now).insertionSort (sortRel sortBy) := by
  rw [arrangedOf, if_neg h]

/-! ## Claim C3 -/

/-- Claim C3 (amended): for every Working Set, every page ≥ 1 and every
sort/filter combination, `totalPages = ceil(totalCoins / 10)` and
`hasMore = (page * 10 < totalCoins)`, and an out-of-range page yields an
empty coins slice rather than an error.  The partition property —
`totalCoins` is the filtered record count and concatenating the coins of
pages 1..totalPages yields each record of the filtered, sorted list exactly
once — holds for the combinations without the page-1 curation: filter
`gainers`, `losers` or `new`, or filter `all` with a sort other than
`marketCap`.  (For `top`, and for `all` sorted by `marketCap` with a
nonempty top-performers list, the curation breaks the partition; see the
counterexample.) -/
theorem C3_pagination_amended (coins : List Coin) (ts now : ℚ) (page : Nat)
    (sortBy : SortBy) (filterBy : FilterBy) (hpage : 1 ≤ page) :
    (getPaginatedCoins (mkCacheData coins ts) now page sortBy filterBy).totalPages =
      ((getPaginatedCoins (mkCacheData coins ts) now page sortBy filterBy).totalCoins +
        9) / 10 ∧
    (getPaginatedCoins (mkCacheData coins ts) now page sortBy filterBy).hasMore =
      decide (page * 10 <
        (getPaginatedCoins (mkCacheData coins ts) now page sortBy filterBy).totalCoins) ∧
    ((getPaginatedCoins (mkCacheData coins ts) now page sortBy filterBy).totalPages <
        page →
      (getPaginatedCoins (mkCacheData coins ts) now page sortBy filterBy).coins = []) ∧
    ((filterBy = .gainers ∨ filterBy = .losers ∨ filterBy = .new ∨
        (filterBy = .all ∧ sortBy ≠ .marketCap)) →
      (getPaginatedCoins (mkCacheData coins ts) now page sortBy filterBy).totalCoins =
          (filteredOf coins filterBy now).length ∧
        pagesConcat (mkCacheData coins ts) now sortBy filterBy =
          (filteredOf coins filterBy now).insertionSort (sortRel sortBy)) := by
  by_cases htop : filterBy = FilterBy.top ∧ page = 1
  · obtain ⟨hf, hp⟩ := htop
    subst hf
    subst hp
    rw [getPaginatedCoins, if_pos ⟨rfl, rfl⟩]
    dsimp only
    refine ⟨?_, ?_, ?_, ?_⟩
    · simp only [COINS_PER_PAGE]
      omega
    · rw [decide_eq_decide]
      simp only [COINS_PER_PAGE]
      try omega
    · intro h
      simp only [COINS_PER_PAGE] at h
      have hnil : coins = [] := by
        have : (mkCacheData coins ts).coins.length = coins.length := rfl
        rw [this] at h
        exact List.length_eq_zero.mp (by omega)
      rw [hnil]
      rfl
    · rintro (h | h | h | ⟨h, _⟩) <;> exact absurd h (by decide)
  · rw [getPaginatedCoins_else _ _ _ _ _ htop]
    dsimp only
    simp only [COINS_PER_PAGE]
    refine ⟨by omega, ?_, ?_, ?_⟩
    · rw [decide_eq_decide]
      omega
    · intro h
      have hlen : (arrangedOf (mkCacheData coins ts) now page sortBy filterBy).length ≤
          (page - 1) * 10 := by omega
      rw [List.drop_eq_nil_of_le hlen, List.take_nil]
    · intro hcond
      have hnt : ∀ p : Nat, ¬(filterBy = FilterBy.top ∧ p = 1) := by
        intro p hc
        rcases hcond with h | h | h | ⟨h, _⟩ <;> rw [h] at hc <;>
          exact absurd hc.1 (by decide)
      have hnc : ∀ p : Nat, ¬(filterBy = FilterBy.all ∧ p = 1 ∧ sortBy = SortBy.marketCap) := by
        intro p hc
        rcases hcond with h | h | h | ⟨h, hs⟩
        · rw [h] at hc
          exact absurd hc.1 (by decide)
        · rw [h] at hc
          exact absurd hc.1 (by decide)
        · rw [h] at hc
          exact absurd hc.1 (by decide)
        · exact absurd hc.2.2 hs
      constructor
      · rw [arrangedOf_plain _ _ _ _ _ (hnc page), List.length_insertionSort]
        rfl
      · have hpagecoins : ∀ i : Nat,
            (getPaginatedCoins (mkCacheData coins ts) now (i + 1) sortBy filterBy).coins =
              (((filteredOf coins filterBy now).insertionSort (sortRel sortBy)).drop
                (i * 10)).take 10 := by
          intro i
          rw [getPaginatedCoins_else _ _ _ _ _ (hnt (i + 1))]
          dsimp only
          rw [arrangedOf_plain _ _ _ _ _ (hnc (i + 1))]
          simp [mkCacheData, COINS_PER_PAGE]
        have htot1 : (getPaginatedCoins (mkCacheData coins ts) now 1 sortBy
            filterBy).totalPages =
            (((filteredOf coins filterBy now).insertionSort (sortRel sortBy)).length +
              10 - 1) / 10 := by
          rw [getPaginatedCoins_else _ _ _ _ _ (hnt 1)]
          dsimp only
          rw [arrangedOf_plain _ _ _ _ _ (hnc 1)]
          rfl
        rw [pagesConcat, htot1, List.map_congr_left (fun i _ => hpagecoins i),
          flatten_chunks]
        apply List.take_of_length_le
        omega

/-- Witness for C3 on a one-gainer working set with filter `gainers`, sort
`change`, page 1. -/
theorem C3_pagination_witness :
    (getPaginatedCoins (mkCacheData [gCoin] 0) 0 1 .change .gainers).totalPages =
      ((getPaginatedCoins (mkCacheData [gCoin] 0) 0 1 .change .gainers).totalCoins +
        9) / 10 ∧
    (getPaginatedCoins (mkCacheData [gCoin] 0) 0 1 .change .gainers).hasMore =
      decide (1 * 10 <
        (getPaginatedCoins (mkCacheData [gCoin] 0) 0 1 .change .gainers).totalCoins) ∧
    ((getPaginatedCoins (mkCacheData [gCoin] 0) 0 1 .change .gainers).totalPages < 1 →
      (getPaginatedCoins (mkCacheData [gCoin] 0) 0 1 .change .gainers).coins = []) ∧
    ((FilterBy.gainers = .gainers ∨ FilterBy.gainers = .losers ∨
        FilterBy.gainers = .new ∨
        (FilterBy.gainers = .all ∧ SortBy.change ≠ .marketCap)) →
      (getPaginatedCoins (mkCacheData [gCoin] 0) 0 1 .change .gainers).totalCoins =
          (filteredOf [gCoin] .gainers 0).length ∧
        pagesConcat (mkCacheData [gCoin] 0) 0 .change .gainers =
          (filteredOf [gCoin] .gainers 0).insertionSort (sortRel .change)) :=
  C3_pagination_amended [gCoin] 0 0 1 .change .gainers (by decide)

/-- Full evaluation of the Working Set built from `cs11`: `xCoin`'s blended
score (400000) tops the performance ranking even though its market cap is the
lowest. -/
theorem cs11_cache_eval :
    mkCacheData cs11 0 =
      { coins := cs11
        lastUpdated := 0
        totalFetched := 11
        marketStats :=
          { totalMarketCap := 955
            totalVolume := 1000000
            topPerformers :=
              [xCoin, mcCoin 0 100, mcCoin 1 99, mcCoin 2 98, mcCoin 3 97,
               mcCoin 4 96, mcCoin 5 95, mcCoin 6 94, mcCoin 7 93, mcCoin 8 92]
            topGainers := []
            topLosers := [] } } := by
  norm_num [mkCacheData, analyzeCoins, cs11, mcCoin, xCoin, baseCoin,
    performanceScore, perfRel, gainsRel, lossesRel]

/-- Counterexample to C3 as stated: on the `cs11` Working Set (all ids
distinct, the record with id `"x"` occurring exactly once) with filter `all`
and sort `marketCap`, the record `"x"` appears twice across pages
1..totalPages — once in the curated page 1 and once more on page 2 of the
uncurated pure sort — so the concatenation of all pages does not reproduce
the filtered, sorted list exactly once per record. -/
theorem C3_counterexample :
    ((pagesConcat (mkCacheData cs11 0) 0 .marketCap .all).filter
        (fun c => c.id == "x")).length = 2 ∧
      (cs11.map Coin.id).Nodup ∧
      (cs11.filter (fun c => c.id == "x")).length = 1 := by
  refine ⟨?_, by decide, by decide⟩
  rw [cs11_cache_eval]
  decide

/-! ## Claim C5 -/

/-- Claim C5 (amended): with filter `all`, sort `marketCap` and page 1 on a
non-empty Working Set, the first `min(len(topPerformers), 10)` returned
records equal the precomputed top-performers list in order
(`len(topPerformers) ≤ 10` always holds), and no id appears twice within
page 1.  However, a top-performer id can reappear on a subsequent page:
pages ≥ 2 slice the pure market-cap order without removing the curated
records (see the counterexample), so that part of the claim is dropped. -/
theorem C5_curation_amended (coins : List Coin) (ts now : ℚ)
    (hid : (coins.map Coin.id).Nodup) (_hne : coins ≠ []) :
    (analyzeCoins coins).topPerformers.length ≤ 10 ∧
    (getPaginatedCoins (mkCacheData coins ts) now 1 .marketCap .all).coins.take
        (analyzeCoins coins).topPerformers.length =
      (analyzeCoins coins).topPerformers ∧
    ((getPaginatedCoins (mkCacheData coins ts) now 1 .marketCap .all).coins.map
        Coin.id).Nodup := by
  have htp10 : (analyzeCoins coins).topPerformers.length ≤ 10 := by
    rw [analyzeCoins_topPerformers, List.length_take]
    exact min_le_left _ _
  have hne2 : ¬(FilterBy.all = FilterBy.top ∧ (1 : Nat) = 1) := by decide
  have hcur : arrangedOf (mkCacheData coins ts) now 1 .marketCap .all =
      (analyzeCoins coins).topPerformers ++
        ((filteredOf coins .all now).insertionSort (sortRel .marketCap)).filter
          (fun c => !((analyzeCoins coins).topPerformers.any (fun t => t.id == c.id))) := by
    rw [arrangedOf, if_pos ⟨rfl, rfl, rfl⟩]
    rfl
  have hcoins : (getPaginatedCoins (mkCacheData coins ts) now 1 .marketCap .all).coins =
      (arrangedOf (mkCacheData coins ts) now 1 .marketCap .all).take 10 := by
    rw [getPaginatedCoins_else _ _ _ _ _ hne2]
    norm_num [COINS_PER_PAGE]
  have htpIds : ((analyzeCoins coins).topPerformers.map Coin.id).Nodup := by
    have hsortIds : ((coins.insertionSort scoreRel).map Coin.id).Nodup :=
      ((List.perm_insertionSort scoreRel coins).map Coin.id).nodup_iff.mpr hid
    rw [analyzeCoins_topPerformers, List.map_take]
    exact hsortIds.sublist (List.take_sublist _ _)
  have hrestIds : ((((filteredOf coins .all now).insertionSort (sortRel .marketCap)).filter
      (fun c => !((analyzeCoins coins).topPerformers.any
        (fun t => t.id == c.id)))).map Coin.id).Nodup := by
    have hmcIds : (((filteredOf coins .all now).insertionSort
        (sortRel .marketCap)).map Coin.id).Nodup :=
      ((List.perm_insertionSort (sortRel .marketCap)
        (filteredOf coins .all now)).map Coin.id).nodup_iff.mpr hid
    exact hmcIds.sublist ((List.filter_sublist _).map Coin.id)
  have happend : (((analyzeCoins coins).topPerformers ++
      ((filteredOf coins .all now).insertionSort (sortRel .marketCap)).filter
        (fun c => !((analyzeCoins coins).topPerformers.any
          (fun t => t.id == c.id)))).map Coin.id).Nodup := by
    rw [List.map_append, List.nodup_append]
    refine ⟨htpIds, hrestIds, ?_⟩
    intro a ha hb
    obtain ⟨c, hc, rfl⟩ := List.mem_map.mp hb
    have hpred := (List.mem_filter.mp hc).2
    simp only [Bool.not_eq_eq_eq_not, Bool.not_true, List.any_eq_false, beq_iff_eq] at hpred
    obtain ⟨b, hbmem, hbid⟩ := List.mem_map.mp ha
    exact hpred b hbmem hbid
  refine ⟨htp10, ?_, ?_⟩
  · rw [hcoins, hcur, List.take_take, Nat.min_eq_left htp10]
    exact List.take_left _ _
  · rw [hcoins, hcur]
    exact happend.sublist ((List.take_sublist _ _).map Coin.id)

/-- Witness for C5 on a one-record working set. -/
theorem C5_curation_witness :
    (analyzeCoins [gCoin]).topPerformers.length ≤ 10 ∧
    (getPaginatedCoins (mkCacheData [gCoin] 0) 0 1 .marketCap .all).coins.take
        (analyzeCoins [gCoin]).topPerformers.length =
      (analyzeCoins [gCoin]).topPerformers ∧
    ((getPaginatedCoins (mkCacheData [gCoin] 0) 0 1 .marketCap .all).coins.map
        Coin.id).Nodup :=
  C5_curation_amended [gCoin] 0 0 (by decide) (by simp [gCoin])

/-- Counterexample to C5 as stated: on the `cs11` Working Set the id `"x"`
is among the first `min(len(topPerformers), 10)` records of page 1 and
appears again in the coins of page 2 of the same Working Set. -/
theorem C5_counterexample :
    ((((getPaginatedCoins (mkCacheData cs11 0) 0 1 .marketCap .all).coins.take
          (min (mkCacheData cs11 0).marketStats.topPerformers.length 10)).map
        Coin.id).contains "x") = true ∧
    (((getPaginatedCoins (mkCacheData cs11 0) 0 2 .marketCap .all).coins.map
        Coin.id).contains "x") = true := by
  rw [cs11_cache_eval]
  exact ⟨by decide, by decide⟩

end BaseGecko
